import Mathlib

/-!
# Verification of the stream-to-S3 multipart upload core (`streamtos3.py`)

This file gives a shallow embedding of the chunked-upload core of
`streamtos3.py` and proves / refutes the specification claims about it.

The embedding covers:

* `md5`, `md5hex` — the MD5 algorithm (RFC 1321), modelling Python's
  `hashlib.md5(...).digest()` / `.hexdigest()`; bytes are `Nat` values < 256.
* `Md5Ctx` — the incremental `hashlib.md5` object: its semantics is the byte
  sequence fed so far (`update` appends, `digest` hashes the accumulated bytes).
* `Client` — the boto3 S3 client collaborator, as an oracle giving the outcome
  of each backend call (`create_multipart_upload`, `upload_part` per
  (part number, attempt), `complete_multipart_upload`, `head_object`).
* `retryLoop` — the inner `while upload_try < retry` loop of `do_upload`.
* `uploadLoop` — the outer `while True` chunk loop of `do_upload`.
* `do_upload`, `check_integrity`, `uploadRun` — the corresponding Python
  functions (`uploadRun` is `upload` minus the CLI/credential layer).

Observable side effects (stream reads, backend calls, sleeps, the success
print) are recorded in an event trace so that temporal claims can be stated.
-/

/-! ## MD5 (RFC 1321), modelling `hashlib.md5` -/

/-- Truncate to a 32-bit word. -/
def mask32 (x : Nat) : Nat := x % 2 ^ 32

/-- 32-bit bitwise complement. -/
def not32 (x : Nat) : Nat := x ^^^ 0xffffffff

/-- 32-bit left rotation (input assumed < 2^32). -/
def rotl32 (x n : Nat) : Nat := mask32 (x <<< n) ||| (x >>> (32 - n))

/-- The 64 per-round left-rotation amounts of MD5. -/
def md5shift : List Nat :=
  [7, 12, 17, 22, 7, 12, 17, 22, 7, 12, 17, 22, 7, 12, 17, 22,
   5, 9, 14, 20, 5, 9, 14, 20, 5, 9, 14, 20, 5, 9, 14, 20,
   4, 11, 16, 23, 4, 11, 16, 23, 4, 11, 16, 23, 4, 11, 16, 23,
   6, 10, 15, 21, 6, 10, 15, 21, 6, 10, 15, 21, 6, 10, 15, 21]

/-- The 64 sine-derived MD5 round constants. -/
def md5K : List Nat :=
  [0xd76aa478, 0xe8c7b756, 0x242070db, 0xc1bdceee,
   0xf57c0faf, 0x4787c62a, 0xa8304613, 0xfd469501,
   0x698098d8, 0x8b44f7af, 0xffff5bb1, 0x895cd7be,
   0x6b901122, 0xfd987193, 0xa679438e, 0x49b40821,
   0xf61e2562, 0xc040b340, 0x265e5a51, 0xe9b6c7aa,
   0xd62f105d, 0x02441453, 0xd8a1e681, 0xe7d3fbc8,
   0x21e1cde6, 0xc33707d6, 0xf4d50d87, 0x455a14ed,
   0xa9e3e905, 0xfcefa3f8, 0x676f02d9, 0x8d2a4c8a,
   0xfffa3942, 0x8771f681, 0x6d9d6122, 0xfde5380c,
   0xa4beea44, 0x4bdecfa9, 0xf6bb4b60, 0xbebfbc70,
   0x289b7ec6, 0xeaa127fa, 0xd4ef3085, 0x04881d05,
   0xd9d4d039, 0xe6db99e5, 0x1fa27cf8, 0xc4ac5665,
   0xf4292244, 0x432aff97, 0xab9423a7, 0xfc93a039,
   0x655b59c3, 0x8f0ccc92, 0xffeff47d, 0x85845dd1,
   0x6fa87e4f, 0xfe2ce6e0, 0xa3014314, 0x4e0811a1,
   0xf7537e82, 0xbd3af235, 0x2ad7d2bb, 0xeb86d391]

/-- Little-endian value of a list of bytes. -/
def leVal (bs : List Nat) : Nat := bs.foldr (fun b acc => b + 256 * acc) 0

/-- The `n` little-endian bytes of a number. -/
def leBytes (n x : Nat) : List Nat := (List.range n).map fun i => x >>> (8 * i) % 256

/-- MD5 padding: append `0x80`, zeros to 56 mod 64, then 8-byte LE bit length. -/
def md5pad (msg : List Nat) : List Nat :=
  let z := (64 + 56 - (msg.length + 1) % 64) % 64
  msg ++ [0x80] ++ List.replicate z 0 ++ leBytes 8 (8 * msg.length)

/-- Fuel-driven worker for `chunksOf` (structural recursion so that the kernel
can evaluate it; the fuel is always at least the list length). -/
def chunksOfGo (n : Nat) : Nat → List α → List (List α)
  | 0, _ => []
  | _, [] => []
  | fuel + 1, x :: xs =>
    if n = 0 then []
    else ((x :: xs).take n) :: chunksOfGo n fuel ((x :: xs).drop n)

/-- Split a list into consecutive slices of `n` elements. -/
def chunksOf (n : Nat) (l : List α) : List (List α) := chunksOfGo n l.length l

/-- One MD5 round: state is `(a, b, c, d)`, `M` the 16 message words. -/
def md5round (M : List Nat) (st : Nat × Nat × Nat × Nat) (i : Nat) :
    Nat × Nat × Nat × Nat :=
  let a := st.1
  let b := st.2.1
  let c := st.2.2.1
  let d := st.2.2.2
  let fg : Nat × Nat :=
    if i < 16 then ((b &&& c) ||| (not32 b &&& d), i)
    else if i < 32 then ((d &&& b) ||| (not32 d &&& c), (5 * i + 1) % 16)
    else if i < 48 then (b ^^^ c ^^^ d, (3 * i + 5) % 16)
    else (c ^^^ (b ||| not32 d), (7 * i) % 16)
  let f := mask32 (fg.1 + a + md5K.getD i 0 + M.getD fg.2 0)
  (d, mask32 (b + rotl32 f (md5shift.getD i 0)), b, c)

/-- Process one 64-byte MD5 block. -/
def md5block (st : Nat × Nat × Nat × Nat) (block : List Nat) :
    Nat × Nat × Nat × Nat :=
  let M := (List.range 16).map fun g => leVal ((block.drop (4 * g)).take 4)
  let r := (List.range 64).foldl (md5round M) st
  (mask32 (st.1 + r.1), mask32 (st.2.1 + r.2.1),
   mask32 (st.2.2.1 + r.2.2.1), mask32 (st.2.2.2 + r.2.2.2))

/-- MD5 digest of a byte sequence, as 16 bytes.  Models
`hashlib.md5(msg).digest()`. -/
def md5 (msg : List Nat) : List Nat :=
  let r := (chunksOf 64 (md5pad msg)).foldl md5block
    (0x67452301, 0xefcdab89, 0x98badcfe, 0x10325476)
  leBytes 4 r.1 ++ leBytes 4 r.2.1 ++ leBytes 4 r.2.2.1 ++ leBytes 4 r.2.2.2

/-- Lowercase hex character for a value < 16. -/
def hexChar (n : Nat) : Char := if n < 10 then Char.ofNat (48 + n) else Char.ofNat (87 + n)

/-- Lowercase hex string of a byte list. -/
def bytesToHex (bs : List Nat) : String :=
  String.mk (bs.flatMap fun b => [hexChar (b / 16 % 16), hexChar (b % 16)])

/-- Models `hashlib.md5(msg).hexdigest()`. -/
def md5hex (msg : List Nat) : String := bytesToHex (md5 msg)

/-- Incremental `hashlib.md5` object: semantically, the byte sequence fed so
far; `update` appends to it and `digest`/`hexdigest` hash the whole. -/
structure Md5Ctx where
  data : List Nat
  deriving DecidableEq, Repr

/-- Models `hashlib.md5()` (fresh object). -/
def Md5Ctx.new : Md5Ctx := ⟨[]⟩

/-- Models `hashlib.md5(bs)` (object seeded with `bs`). -/
def Md5Ctx.ofBytes (bs : List Nat) : Md5Ctx := ⟨bs⟩

/-- Models `m.update(chunk)`. -/
def Md5Ctx.update (m : Md5Ctx) (chunk : List Nat) : Md5Ctx := ⟨m.data ++ chunk⟩

/-- Models `m.digest()`. -/
def Md5Ctx.digest (m : Md5Ctx) : List Nat := md5 m.data

/-- Models `m.hexdigest()`. -/
def Md5Ctx.hexdigest (m : Md5Ctx) : String := md5hex m.data

/-! ## The S3 backend collaborator -/

/-- Outcome of one `client.upload_part` call: either a raised
`botocore.exceptions.ClientError`, or a response carrying an `ETag`. -/
inductive PartResponse where
  | clientError
  | etag (tag : String)
  deriving DecidableEq, Repr

/-- The boto3 S3 client, as an oracle fixing the outcome of every backend
call of `do_upload` / `check_integrity`:
* `createResult`: `create_multipart_upload` — `some uploadId`, or `none` for a
  raised `ClientError`;
* `uploadPart partNumber tryNumber`: outcome of the `upload_part` call for
  that part on that (1-based) attempt;
* `completeOk`: whether `complete_multipart_upload` succeeds;
* `headResult`: `head_object` — `some etag` (the response `ETag` field), or
  `none` for a raised `ClientError`. -/
structure Client where
  createResult : Option String
  uploadPart : Nat → Nat → PartResponse
  completeOk : Bool
  headResult : Option String

/-- Observable steps of a run, in order: stream reads, the `hashes.append`,
backend calls, retry sleeps, and the per-part success message. -/
inductive Event where
  | readChunk (bytes : List Nat)
  | readEnd
  | hashAppend (num : Nat)
  | attempt (num tryNo : Nat)
  | mismatchMsg (num : Nat)
  | sleep
  | partOk (num tryNo : Nat)
  | abortCalled (uploadId : String)
  | completeCalled (uploadId : String) (parts : List (Nat × String))
  deriving DecidableEq, Repr

/-- Terminal result of `do_upload`:
* `exit c` — a `sys.exit(c)` call;
* `unboundLocal` — the Python `UnboundLocalError` raised at the
  `upload_try >= retry` check when the loop body never ran;
* `mathDomainError` — the `math.log10(chunksize)` crash for `chunksize = 0`;
* `ok` — the `return upload_id, in_md5sum, hashes` statement. -/
inductive Outcome where
  | exit (code : Nat)
  | unboundLocal
  | mathDomainError
  | ok (uploadId : String) (in_md5sum : Md5Ctx) (hashes : List Md5Ctx)
  deriving DecidableEq, Repr

/-- Process-level result of a whole run: a `sys.exit` code, or an uncaught
exception (`crash`). -/
inductive RunResult where
  | exitCode (c : Nat)
  | crash
  deriving DecidableEq, Repr

/-! ## `do_upload` -/

/-- The local variables of `do_upload` that the chunk loop touches.
`upload_try` is `none` until the Python local is first assigned (reading it
then raises `UnboundLocalError`). -/
structure LoopState where
  num : Nat
  parts : List (Nat × String)
  hashes : List Md5Ctx
  in_md5sum : Md5Ctx
  upload_try : Option Nat
  trace : List Event
  deriving Repr

/-- Fuel-driven worker for the inner `while upload_try < retry` loop; the
fuel is the number of remaining permitted attempts (`retry - upload_try`).
Each iteration increments `upload_try`, calls `upload_part`, appends the
response to `parts` on transport success, raises on an ETag/MD5 mismatch
(caught together with `ClientError` by the sleep-and-retry handler), and
breaks on a verified upload.  Returns the final `upload_try`, `parts`, and
trace. -/
def retryGo (cl : Client) (num : Nat) (chunkHex : String) :
    Nat → Nat → List (Nat × String) → List Event →
    Nat × List (Nat × String) × List Event
  | 0, upload_try, parts, trace => (upload_try, parts, trace)
  | fuel + 1, upload_try, parts, trace =>
    let t := upload_try + 1
    match cl.uploadPart num t with
    | .clientError =>
      retryGo cl num chunkHex fuel t parts (trace ++ [.attempt num t, .sleep])
    | .etag e =>
      let parts2 := parts ++ [(num, e)]
      if (e.drop 1).dropRight 1 = chunkHex then
        (t, parts2, trace ++ [.attempt num t, .partOk num t])
      else
        retryGo cl num chunkHex fuel t parts2
          (trace ++ [.attempt num t, .mismatchMsg num, .sleep])

/-- The inner retry loop of `do_upload`, entered with attempt counter
`upload_try` and bound `retry`. -/
def retryLoop (cl : Client) (num : Nat) (chunkHex : String)
    (retry upload_try : Nat) (parts : List (Nat × String))
    (trace : List Event) : Nat × List (Nat × String) × List Event :=
  retryGo cl num chunkHex (retry - upload_try) upload_try parts trace

/-- Fuel-driven worker for the outer `while True` chunk loop (the fuel always
exceeds the remaining input length, so the zero-fuel case is unreachable).
Each iteration reads up to `chunksize` bytes, breaks on an empty read, and
otherwise updates the running digest, appends the chunk's MD5 to `hashes`,
and runs the retry loop for the new part. -/
def uploadGo (cl : Client) (chunksize retry : Nat) :
    Nat → List Nat → LoopState → LoopState
  | 0, _, st => st
  | fuel + 1, input, st =>
    let chunk := input.take chunksize
    if chunk = [] then { st with trace := st.trace ++ [.readEnd] }
    else
      let num := st.num + 1
      let part_md5sum := Md5Ctx.ofBytes chunk
      let r := retryLoop cl num part_md5sum.hexdigest retry 0 st.parts
        (st.trace ++ [.readChunk chunk, .hashAppend num])
      uploadGo cl chunksize retry fuel (input.drop chunksize)
        { num := num
          parts := r.2.1
          hashes := st.hashes ++ [part_md5sum]
          in_md5sum := st.in_md5sum.update chunk
          upload_try := some r.1
          trace := r.2.2 }

/-- The chunk loop of `do_upload`, reading from `input`. -/
def uploadLoop (cl : Client) (chunksize retry : Nat) (input : List Nat)
    (st : LoopState) : LoopState :=
  uploadGo cl chunksize retry (input.length + 1) input st

/-- The loop state at entry of the chunk loop. -/
def initState : LoopState :=
  { num := 0, parts := [], hashes := [], in_md5sum := Md5Ctx.new
    upload_try := none, trace := [] }

/-- `do_upload(client, bucket, obj, buf, chunksize, secs, retry)`: initiate
the multipart upload, run the chunk loop, then either clean up (abort) and
`sys.exit(8)` when the last value of `upload_try` reached `retry`, or call
`complete_multipart_upload` (exiting 8 if it fails) and return
`(upload_id, in_md5sum, hashes)`.  Returns the event trace and the outcome. -/
def do_upload (cl : Client) (input : List Nat) (chunksize retry : Nat) :
    List Event × Outcome :=
  match cl.createResult with
  | none => ([], .exit 7)
  | some upload_id =>
    if chunksize = 0 then ([], .mathDomainError)
    else
      let st := uploadLoop cl chunksize retry input initState
      match st.upload_try with
      | none => (st.trace, .unboundLocal)
      | some t =>
        if t ≥ retry then
          (st.trace ++ [.abortCalled upload_id], .exit 8)
        else if cl.completeOk then
          (st.trace ++ [.completeCalled upload_id st.parts],
           .ok upload_id st.in_md5sum st.hashes)
        else
          (st.trace ++ [.completeCalled upload_id st.parts], .exit 8)

/-! ## `check_integrity` and the whole run -/

/-- Python `s.strip(STR)` with the quote character: remove every leading and
trailing `"` character. -/
def stripQuoteChars (s : String) : String :=
  String.mk (((s.toList.dropWhile (· = Char.ofNat 34)).reverse.dropWhile
    (· = Char.ofNat 34)).reverse)

/-- `check_integrity(client, bucket, obj, hashes)`: `head_object` (exit 8 on
`ClientError`), then compare the quote-stripped remote ETag with
`md5(concat of digests)-count`. -/
def check_integrity (cl : Client) (hashes : List Md5Ctx) : Except Nat Bool :=
  match cl.headResult with
  | none => .error 8
  | some respETag =>
    let remote_etag := stripQuoteChars respETag
    let md5_of_md5s := md5hex ((hashes.map Md5Ctx.digest).flatten)
    let local_etag := md5_of_md5s ++ "-" ++ toString hashes.length
    if local_etag ≠ remote_etag then .ok false else .ok true

/-- `upload(...)` minus the CLI/credential layer: run `do_upload`, then
`check_integrity`, and map to the process exit code (`sys.exit(0)` on
verified success, `sys.exit(1)` on mismatch). -/
def uploadRun (cl : Client) (input : List Nat) (chunksize retry : Nat) :
    RunResult :=
  match do_upload cl input chunksize retry with
  | (_, .exit c) => .exitCode c
  | (_, .unboundLocal) => .crash
  | (_, .mathDomainError) => .crash
  | (_, .ok _ _ hashes) =>
    match check_integrity cl hashes with
    | .error c => .exitCode c
    | .ok true => .exitCode 0
    | .ok false => .exitCode 1

/-! ## Event classifiers -/

/-- Is the event a `complete_multipart_upload` call? -/
def isCompleteEvent : Event → Bool
  | .completeCalled _ _ => true
  | _ => false

/-- Is the event an `abort_multipart_upload` call? -/
def isAbortEvent : Event → Bool
  | .abortCalled _ => true
  | _ => false

/-- Is the event an `upload_part` call? -/
def isAttemptEvent : Event → Bool
  | .attempt _ _ => true
  | _ => false

/-- The bytes of a chunk-read event. -/
def readChunkBytes : Event → Option (List Nat)
  | .readChunk bs => some bs
  | _ => none

/-- Every `upload_part` call in the trace is preceded by the `hashes.append`
of the same part number. -/
def hashBeforeAttempt (l : List Event) : Prop :=
  ∀ i k t, l.get? i = some (.attempt k t) → Event.hashAppend k ∈ l.take i

/-- An S3 ETag as the backend quotes it on the wire. -/
def quoted (s : String) : String := "\"" ++ s ++ "\""

/-! ## Concrete clients for the closed runs -/

/-- Backend for the C1 run: part 1 always raises `ClientError`, part 2
uploads correctly. -/
def c1client : Client :=
  { createResult := some "sid1"
    uploadPart := fun num _ =>
      if num = 1 then .clientError else .etag (quoted (md5hex [1]))
    completeOk := true
    headResult := none }

/-- Backend for the C2 run: the first attempt of every part returns a
mismatching ETag, the second a correct one. -/
def c2client : Client :=
  { createResult := some "sid2"
    uploadPart := fun _ t =>
      if t = 1 then .etag "\"00\"" else .etag (quoted (md5hex [0]))
    completeOk := true
    headResult := none }

/-- Backend for the C3 run (never reached past the chunk loop). -/
def c3client : Client :=
  { createResult := some "sid3"
    uploadPart := fun _ _ => .clientError
    completeOk := true
    headResult := none }

/-- Backend whose `upload_part` always raises: part-upload exhaustion. -/
def c7partFail : Client :=
  { createResult := some "sidA", uploadPart := fun _ _ => .clientError
    completeOk := true, headResult := some "\"x\"" }

/-- Backend that uploads correctly but fails `complete_multipart_upload`. -/
def c7completeFail : Client :=
  { createResult := some "sidB"
    uploadPart := fun _ _ => .etag (quoted (md5hex [0]))
    completeOk := false, headResult := some "\"x\"" }

/-- Backend whose `create_multipart_upload` raises. -/
def c7initFail : Client :=
  { createResult := none, uploadPart := fun _ _ => .clientError
    completeOk := true, headResult := some "\"x\"" }

/-- Backend that uploads and completes but whose `head_object` raises. -/
def c7notFound : Client :=
  { createResult := some "sidC"
    uploadPart := fun _ _ => .etag (quoted (md5hex [0]))
    completeOk := true, headResult := none }

/-- Backend that uploads and completes but reports a wrong composite ETag. -/
def c7mismatch : Client :=
  { createResult := some "sidD"
    uploadPart := fun _ _ => .etag (quoted (md5hex [0]))
    completeOk := true, headResult := some "\"zzz\"" }

/-- Backend for a fully successful, verified run. -/
def c7success : Client :=
  { createResult := some "sidE"
    uploadPart := fun _ _ => .etag (quoted (md5hex [0]))
    completeOk := true
    headResult := some (quoted (md5hex (md5 [0]) ++ "-1")) }

/-- Backend for the C4 witness: `head_object` reports the composite ETag of
a one-part upload of the chunk `[0]`. -/
def c4client : Client :=
  { createResult := some "sid4"
    uploadPart := fun _ _ => .etag (quoted (md5hex [0]))
    completeOk := true
    headResult := some (quoted (md5hex (md5 [0]) ++ "-1")) }

/-- Backend for the C5 witness: every part uploads on the first attempt but
`complete_multipart_upload` fails. -/
def c5client : Client :=
  { createResult := some "sid5"
    uploadPart := fun _ _ => .etag (quoted (md5hex [0]))
    completeOk := false, headResult := some "\"x\"" }

/-- Backend for the C6 witness: the sole attempt returns a mismatching tag. -/
def c6client : Client :=
  { createResult := some "sid6"
    uploadPart := fun _ _ => .etag "\"00\""
    completeOk := true, headResult := some "\"x\"" }

/-- Transport-failure twin of `c6client` for the C6 witness. -/
def c6clientTransport : Client :=
  { createResult := some "sid6"
    uploadPart := fun _ _ => .clientError
    completeOk := true, headResult := some "\"x\"" }

/-- Backend for the C8 witness. -/
def c8client : Client :=
  { createResult := some "sid8"
    uploadPart := fun _ _ => .clientError
    completeOk := true, headResult := some "\"x\"" }

/-- Backend for the C9 witness (`retry = 0`, so never consulted for parts). -/
def c9client : Client :=
  { createResult := some "sid9"
    uploadPart := fun _ _ => .etag (quoted (md5hex [0]))
    completeOk := true, headResult := some "\"x\"" }

/-- Backend for the C10 witness: part 1 needs two attempts. -/
def c10client : Client :=
  { createResult := some "sidX"
    uploadPart := fun _ t =>
      if t = 1 then .clientError else .etag (quoted (md5hex [5]))
    completeOk := true, headResult := some "\"x\"" }

/-- The trace of events the chunk loop produces when `retry = 0` (no
`upload_part` call is ever made): per chunk a read and a hash append, then
the end-of-stream read. -/
def zeroRetryEvents (num0 : Nat) : List (List Nat) → List Event
  | [] => [.readEnd]
  | c :: rest => .readChunk c :: .hashAppend (num0 + 1) :: zeroRetryEvents (num0 + 1) rest

set_option maxRecDepth 10000

/-- RFC 1321 test vector: MD5 of the empty message. -/
example : md5hex [] = "d41d8cd98f00b204e9800998ecf8427e" := by decide

/-- RFC 1321 test vector: MD5 of "abc". -/
example : md5hex [0x61, 0x62, 0x63] = "900150983cd24fb0d6963f7d28e17f72" := by decide

/-- C1 (code bug): with a two-chunk input whose first part fails every
attempt (`retry = 2`) while the second part uploads cleanly, `do_upload`
does **not** abort after the exhausted part: it reads the next chunk,
uploads it, never calls `abort_multipart_upload`, and finishes by calling
`complete_multipart_upload` with only part 2 — because the
`upload_try >= retry` check sits after the chunk loop and only sees the last
part's attempt counter.  The full trace and outcome are computed. -/
theorem c1_exhausted_part_does_not_abort :
    do_upload c1client [0, 1] 1 2 =
      ([.readChunk [0], .hashAppend 1, .attempt 1 1, .sleep, .attempt 1 2,
        .sleep, .readChunk [1], .hashAppend 2, .attempt 2 1, .partOk 2 1,
        .readEnd, .completeCalled "sid1" [(2, quoted (md5hex [1]))]],
       .ok "sid1" ⟨[0, 1]⟩ [⟨[0]⟩, ⟨[1]⟩]) := by decide

/-- C2 (code bug): with a single chunk whose first attempt returns a
mismatching ETag and whose second attempt succeeds (`retry = 3`), the
`PartList` passed to `complete_multipart_upload` holds **two** entries for
part 1 — the first carrying the mismatched tag — because the code appends to
`parts` before checking the returned ETag. -/
theorem c2_mismatch_retry_duplicates_part_entry :
    do_upload c2client [0] 1 3 =
      ([.readChunk [0], .hashAppend 1, .attempt 1 1, .mismatchMsg 1, .sleep,
        .attempt 1 2, .partOk 1 2, .readEnd,
        .completeCalled "sid2" [(1, "\"00\""), (1, quoted (md5hex [0]))]],
       .ok "sid2" ⟨[0]⟩ [⟨[0]⟩]) := by decide

/-- C3 (code bug): on an empty input the chunk loop body never runs, so the
Python local `upload_try` is never assigned and the `upload_try >= retry`
check raises `UnboundLocalError`: the run crashes without ever calling
`complete_multipart_upload`, instead of finalizing with an empty part list. -/
theorem c3_empty_input_crashes_instead_of_finalizing :
    do_upload c3client [] 4 2 = ([.readEnd], .unboundLocal) ∧
    uploadRun c3client [] 4 2 = .crash := by decide

/-- C7 counterexample: the caller-visible result does **not** distinguish
every failure kind — part-upload exhaustion and a failed
`complete_multipart_upload` both terminate with `sys.exit(8)`. -/
theorem c7_part_failure_and_complete_failure_collide :
    uploadRun c7partFail [0] 1 1 = .exitCode 8 ∧
    uploadRun c7completeFail [0] 1 2 = .exitCode 8 := by decide

/-- C7 amended: the exit codes the code actually produces — init failure 7;
part-upload exhaustion, complete failure and post-completion `head_object`
failure all 8; composite-checksum mismatch 1; verified success 0.  So
`SessionInitFailed`, `IntegrityMismatch` and success are distinguishable
from everything else, and `ObjectNotFound` (8) differs from
`IntegrityMismatch` (1), but `PartUploadFailed`, `CompleteFailed` and
`ObjectNotFound` are mutually indistinguishable. -/
theorem c7_exit_code_mapping :
    uploadRun c7initFail [0] 1 2 = .exitCode 7 ∧
    uploadRun c7partFail [0] 1 1 = .exitCode 8 ∧
    uploadRun c7completeFail [0] 1 2 = .exitCode 8 ∧
    uploadRun c7notFound [0] 1 2 = .exitCode 8 ∧
    uploadRun c7mismatch [0] 1 2 = .exitCode 1 ∧
    uploadRun c7success [0] 1 2 = .exitCode 0 ∧
    (7 : Nat) ≠ 8 ∧ (8 : Nat) ≠ 1 ∧ (1 : Nat) ≠ 0 := by decide

/-! ## Unfolding lemmas for `chunksOf` and the loops -/

theorem chunksOfGo_fuel_eq {α : Type} (n : Nat) :
    ∀ f1 : Nat, ∀ f2 : Nat, ∀ l : List α, l.length ≤ f1 → l.length ≤ f2 →
      chunksOfGo n f1 l = chunksOfGo n f2 l := by
  intro f1
  induction f1 with
  | zero =>
    intro f2 l h1 _
    have hl : l = [] := List.eq_nil_of_length_eq_zero (Nat.le_zero.mp h1)
    subst hl
    cases f2 <;> rfl
  | succ f1 ih =>
    intro f2 l h1 h2
    cases l with
    | nil => cases f2 <;> rfl
    | cons x xs =>
      cases f2 with
      | zero => simp at h2
      | succ f2 =>
        simp only [chunksOfGo]
        by_cases hn : n = 0
        · simp [hn]
        · simp only [hn, if_false]
          have hn1 : 1 ≤ n := Nat.one_le_iff_ne_zero.mpr hn
          simp only [List.length_cons] at h1 h2
          have hlen : ((x :: xs).drop n).length ≤ f1 := by
            simp only [List.length_drop, List.length_cons]
            omega
          have hlen2 : ((x :: xs).drop n).length ≤ f2 := by
            simp only [List.length_drop, List.length_cons]
            omega
          rw [ih f2 _ hlen hlen2]

theorem chunksOf_nil {α : Type} (n : Nat) : chunksOf n ([] : List α) = [] := rfl

theorem chunksOf_cons {α : Type} (n : Nat) (l : List α) (hn : n ≠ 0)
    (hl : l ≠ []) : chunksOf n l = l.take n :: chunksOf n (l.drop n) := by
  cases l with
  | nil => exact absurd rfl hl
  | cons x xs =>
    show chunksOfGo n (xs.length + 1) (x :: xs) = _
    simp only [chunksOfGo, hn, if_false]
    unfold chunksOf
    congr 1
    apply chunksOfGo_fuel_eq
    · simp only [List.length_drop, List.length_cons]
      omega
    · exact Nat.le_refl _

theorem retryLoop_stop (cl : Client) (num : Nat) (chunkHex : String)
    (retry upload_try : Nat) (parts : List (Nat × String)) (trace : List Event)
    (h : ¬ upload_try < retry) :
    retryLoop cl num chunkHex retry upload_try parts trace =
      (upload_try, parts, trace) := by
  unfold retryLoop
  have hf : retry - upload_try = 0 := by omega
  rw [hf]
  rfl

theorem retryLoop_clientError (cl : Client) (num : Nat) (chunkHex : String)
    (retry upload_try : Nat) (parts : List (Nat × String)) (trace : List Event)
    (h : upload_try < retry)
    (he : cl.uploadPart num (upload_try + 1) = .clientError) :
    retryLoop cl num chunkHex retry upload_try parts trace =
      retryLoop cl num chunkHex retry (upload_try + 1) parts
        (trace ++ [.attempt num (upload_try + 1), .sleep]) := by
  unfold retryLoop
  have hf : retry - upload_try = (retry - (upload_try + 1)) + 1 := by omega
  rw [hf]
  simp only [retryGo, he]

theorem retryLoop_mismatch (cl : Client) (num : Nat) (chunkHex : String)
    (retry upload_try : Nat) (parts : List (Nat × String)) (trace : List Event)
    (e : String) (h : upload_try < retry)
    (he : cl.uploadPart num (upload_try + 1) = .etag e)
    (hm : (e.drop 1).dropRight 1 ≠ chunkHex) :
    retryLoop cl num chunkHex retry upload_try parts trace =
      retryLoop cl num chunkHex retry (upload_try + 1)
        (parts ++ [(num, e)])
        (trace ++ [.attempt num (upload_try + 1), .mismatchMsg num, .sleep]) := by
  unfold retryLoop
  have hf : retry - upload_try = (retry - (upload_try + 1)) + 1 := by omega
  rw [hf]
  simp only [retryGo, he, hm, if_false]

theorem retryLoop_success (cl : Client) (num : Nat) (chunkHex : String)
    (retry upload_try : Nat) (parts : List (Nat × String)) (trace : List Event)
    (e : String) (h : upload_try < retry)
    (he : cl.uploadPart num (upload_try + 1) = .etag e)
    (hm : (e.drop 1).dropRight 1 = chunkHex) :
    retryLoop cl num chunkHex retry upload_try parts trace =
      (upload_try + 1, parts ++ [(num, e)],
       trace ++ [.attempt num (upload_try + 1), .partOk num (upload_try + 1)]) := by
  unfold retryLoop
  have hf : retry - upload_try = (retry - (upload_try + 1)) + 1 := by omega
  rw [hf]
  simp only [retryGo, he, hm, if_true]

theorem uploadGo_fuel_eq (cl : Client) (chunksize retry : Nat) :
    ∀ f1 : Nat, ∀ f2 : Nat, ∀ input : List Nat, ∀ st : LoopState,
      input.length < f1 → input.length < f2 →
      uploadGo cl chunksize retry f1 input st =
        uploadGo cl chunksize retry f2 input st := by
  intro f1
  induction f1 with
  | zero => intro f2 input st h1 _; omega
  | succ f1 ih =>
    intro f2 input st h1 h2
    cases f2 with
    | zero => omega
    | succ f2 =>
      simp only [uploadGo]
      by_cases hc : input.take chunksize = []
      · simp only [hc, if_pos]
      · simp only [hc, if_neg, if_false]
        have hcs : chunksize ≠ 0 := by
          intro h0
          exact hc (by simp [h0])
        have hne : input ≠ [] := by
          intro h0
          exact hc (by simp [h0])
        have hlen : (input.drop chunksize).length < f1 := by
          simp only [List.length_drop]
          have : 0 < input.length := List.length_pos.mpr hne
          omega
        have hlen2 : (input.drop chunksize).length < f2 := by
          simp only [List.length_drop]
          have : 0 < input.length := List.length_pos.mpr hne
          omega
        exact ih f2 _ _ hlen hlen2

theorem uploadLoop_end (cl : Client) (chunksize retry : Nat) (input : List Nat)
    (st : LoopState) (h : input.take chunksize = []) :
    uploadLoop cl chunksize retry input st =
      { st with trace := st.trace ++ [.readEnd] } := by
  unfold uploadLoop
  simp only [uploadGo, h, if_pos]

theorem uploadLoop_step (cl : Client) (chunksize retry : Nat) (input : List Nat)
    (st : LoopState) (h : input.take chunksize ≠ []) :
    uploadLoop cl chunksize retry input st =
      uploadLoop cl chunksize retry (input.drop chunksize)
        { num := st.num + 1
          parts := (retryLoop cl (st.num + 1)
            (Md5Ctx.ofBytes (input.take chunksize)).hexdigest retry 0 st.parts
            (st.trace ++ [.readChunk (input.take chunksize),
                          .hashAppend (st.num + 1)])).2.1
          hashes := st.hashes ++ [Md5Ctx.ofBytes (input.take chunksize)]
          in_md5sum := st.in_md5sum.update (input.take chunksize)
          upload_try := some (retryLoop cl (st.num + 1)
            (Md5Ctx.ofBytes (input.take chunksize)).hexdigest retry 0 st.parts
            (st.trace ++ [.readChunk (input.take chunksize),
                          .hashAppend (st.num + 1)])).1
          trace := (retryLoop cl (st.num + 1)
            (Md5Ctx.ofBytes (input.take chunksize)).hexdigest retry 0 st.parts
            (st.trace ++ [.readChunk (input.take chunksize),
                          .hashAppend (st.num + 1)])).2.2 } := by
  have hne : input ≠ [] := by
    intro h0
    exact h (by simp [h0])
  have hcs : chunksize ≠ 0 := by
    intro h0
    exact h (by simp [h0])
  show uploadGo cl chunksize retry (input.length + 1) input st = _
  simp only [uploadGo, h, if_neg, if_false]
  apply uploadGo_fuel_eq
  · simp only [List.length_drop]
    have : 0 < input.length := List.length_pos.mpr hne
    omega
  · simp only [List.length_drop]
    omega

theorem retryGo_trace_shape (cl : Client) (num : Nat) (chunkHex : String) :
    ∀ fuel upload_try : Nat, ∀ parts : List (Nat × String), ∀ trace : List Event,
      ∃ s, (retryGo cl num chunkHex fuel upload_try parts trace).2.2 = trace ++ s ∧
        ∀ ev ∈ s, ev = .sleep ∨ ev = .mismatchMsg num ∨
          ∃ t, upload_try < t ∧ (ev = .attempt num t ∨ ev = .partOk num t) := by
  intro fuel
  induction fuel with
  | zero =>
    intro upload_try parts trace
    exact ⟨[], by simp [retryGo], by simp⟩
  | succ fuel ih =>
    intro upload_try parts trace
    simp only [retryGo]
    cases hcl : cl.uploadPart num (upload_try + 1) with
    | clientError =>
      obtain ⟨s, hs, hmem⟩ :=
        ih (upload_try + 1) parts (trace ++ [.attempt num (upload_try + 1), .sleep])
      refine ⟨[.attempt num (upload_try + 1), .sleep] ++ s, by rw [hs]; simp, ?_⟩
      intro ev hev
      rcases List.mem_append.mp hev with hev | hev
      · simp only [List.mem_cons, List.not_mem_nil, or_false] at hev
        rcases hev with h1 | h1
        · exact h1 ▸ Or.inr (Or.inr ⟨upload_try + 1, Nat.lt_succ_self _, Or.inl rfl⟩)
        · exact h1 ▸ Or.inl rfl
      · rcases hmem ev hev with h1 | h1 | ⟨t, ht, h1⟩
        · exact Or.inl h1
        · exact Or.inr (Or.inl h1)
        · exact Or.inr (Or.inr ⟨t, by omega, h1⟩)
    | etag e =>
      by_cases hm : (e.drop 1).dropRight 1 = chunkHex
      · refine ⟨[.attempt num (upload_try + 1), .partOk num (upload_try + 1)],
          by simp [hm], ?_⟩
        intro ev hev
        simp only [List.mem_cons, List.not_mem_nil, or_false] at hev
        rcases hev with h1 | h1
        · exact h1 ▸ Or.inr (Or.inr ⟨upload_try + 1, Nat.lt_succ_self _, Or.inl rfl⟩)
        · exact h1 ▸ Or.inr (Or.inr ⟨upload_try + 1, Nat.lt_succ_self _, Or.inr rfl⟩)
      · simp only [hm, if_false]
        obtain ⟨s, hs, hmem⟩ := ih (upload_try + 1) (parts ++ [(num, e)])
          (trace ++ [.attempt num (upload_try + 1), .mismatchMsg num, .sleep])
        refine ⟨[.attempt num (upload_try + 1), .mismatchMsg num, .sleep] ++ s,
          by rw [hs]; simp, ?_⟩
        intro ev hev
        rcases List.mem_append.mp hev with hev | hev
        · simp only [List.mem_cons, List.not_mem_nil, or_false] at hev
          rcases hev with h1 | h1 | h1
          · exact h1 ▸ Or.inr (Or.inr ⟨upload_try + 1, Nat.lt_succ_self _, Or.inl rfl⟩)
          · exact h1 ▸ Or.inr (Or.inl rfl)
          · exact h1 ▸ Or.inl rfl
        · rcases hmem ev hev with h1 | h1 | ⟨t, ht, h1⟩
          · exact Or.inl h1
          · exact Or.inr (Or.inl h1)
          · exact Or.inr (Or.inr ⟨t, by omega, h1⟩)

theorem retryLoop_trace_shape (cl : Client) (num : Nat) (chunkHex : String)
    (retry upload_try : Nat) (parts : List (Nat × String)) (trace : List Event) :
    ∃ s, (retryLoop cl num chunkHex retry upload_try parts trace).2.2 = trace ++ s ∧
      ∀ ev ∈ s, ev = .sleep ∨ ev = .mismatchMsg num ∨
        ∃ t, upload_try < t ∧ (ev = .attempt num t ∨ ev = .partOk num t) :=
  retryGo_trace_shape cl num chunkHex (retry - upload_try) upload_try parts trace

theorem uploadLoop_master (cl : Client) (chunksize retry : Nat)
    (hcs : 0 < chunksize) :
    ∀ input : List Nat, ∀ st : LoopState,
      ((uploadLoop cl chunksize retry input st).hashes
          = st.hashes ++ (chunksOf chunksize input).map Md5Ctx.ofBytes) ∧
      ((uploadLoop cl chunksize retry input st).in_md5sum.data
          = st.in_md5sum.data ++ input) ∧
      (∃ s, (uploadLoop cl chunksize retry input st).trace = st.trace ++ s ∧
        ∀ ev ∈ s, isCompleteEvent ev = false ∧ isAbortEvent ev = false) := by
  have key : ∀ n : Nat, ∀ input : List Nat, input.length = n → ∀ st : LoopState,
      ((uploadLoop cl chunksize retry input st).hashes
          = st.hashes ++ (chunksOf chunksize input).map Md5Ctx.ofBytes) ∧
      ((uploadLoop cl chunksize retry input st).in_md5sum.data
          = st.in_md5sum.data ++ input) ∧
      (∃ s, (uploadLoop cl chunksize retry input st).trace = st.trace ++ s ∧
        ∀ ev ∈ s, isCompleteEvent ev = false ∧ isAbortEvent ev = false) := by
    intro n
    induction n using Nat.strong_induction_on with
    | _ n ih =>
      intro input hlen st
      by_cases hend : input.take chunksize = []
      · have hinput : input = [] := by
          rcases List.take_eq_nil_iff.mp hend with h0 | h0
          · omega
          · exact h0
        subst hinput
        rw [uploadLoop_end cl chunksize retry [] st hend]
        refine ⟨by simp [chunksOf_nil], by simp, ⟨[.readEnd], rfl, ?_⟩⟩
        intro ev hev
        simp only [List.mem_cons, List.not_mem_nil, or_false] at hev
        subst hev
        exact ⟨rfl, rfl⟩
      · have hne : input ≠ [] := by
          intro h0
          exact hend (by simp [h0])
        have hlt : (input.drop chunksize).length < n := by
          simp only [List.length_drop]
          have : 0 < input.length := List.length_pos.mpr hne
          omega
        rw [uploadLoop_step cl chunksize retry input st hend]
        obtain ⟨ih1, ih2, s2, hs2, hmem2⟩ := ih _ hlt (input.drop chunksize) rfl _
        obtain ⟨s1, hs1, hmem1⟩ := retryLoop_trace_shape cl (st.num + 1)
          (Md5Ctx.ofBytes (input.take chunksize)).hexdigest retry 0 st.parts
          (st.trace ++ [.readChunk (input.take chunksize), .hashAppend (st.num + 1)])
        refine ⟨?_, ?_, ?_⟩
        · rw [ih1]
          simp only []
          rw [chunksOf_cons chunksize input (by omega) hne]
          simp
        · rw [ih2]
          simp only [Md5Ctx.update]
          rw [List.append_assoc]
          congr 1
          exact List.take_append_drop chunksize input
        · refine ⟨[.readChunk (input.take chunksize), .hashAppend (st.num + 1)]
            ++ s1 ++ s2, ?_, ?_⟩
          · rw [hs2]
            simp only []
            rw [hs1]
            simp [List.append_assoc]
          · intro ev hev
            rcases List.mem_append.mp hev with hev | hev
            · rcases List.mem_append.mp hev with hev | hev
              · simp only [List.mem_cons, List.not_mem_nil, or_false] at hev
                rcases hev with h1 | h1 <;> subst h1 <;> exact ⟨rfl, rfl⟩
              · rcases hmem1 ev hev with h1 | h1 | ⟨t, _, h1 | h1⟩ <;>
                  subst h1 <;> exact ⟨rfl, rfl⟩
            · exact hmem2 ev hev
  exact fun input st => key input.length input rfl st

/-- C4: with `head_object` succeeding, `check_integrity` returns true exactly
when the backend tag, stripped of its quoting, equals the hex MD5 of the
concatenation of the parts' raw checksum digests followed by a dash and the
part count. -/
theorem c4_verify_iff (cl : Client) (hashes : List Md5Ctx) (respETag : String)
    (h : cl.headResult = some respETag) :
    check_integrity cl hashes = .ok true ↔
      stripQuoteChars respETag =
        md5hex ((hashes.map Md5Ctx.digest).flatten) ++ "-" ++
          toString hashes.length := by
  unfold check_integrity
  rw [h]
  by_cases he : md5hex ((hashes.map Md5Ctx.digest).flatten) ++ "-" ++
      toString hashes.length = stripQuoteChars respETag
  · constructor
    · intro _
      exact he.symm
    · intro _
      simp [he]
  · simp only [ne_eq, he, not_false_eq_true, if_true]
    constructor
    · intro hok
      simp at hok
    · intro hok
      exact absurd hok.symm he

/-- C5: whenever the chunk loop finishes with an attempt counter below
`retry` (so `do_upload` proceeds to finalization) and
`complete_multipart_upload` fails, the run terminates with `sys.exit(8)`,
the completion call is made exactly once (no retry of completion), and
`abort_multipart_upload` is never invoked. -/
theorem c5_complete_failure_is_terminal (cl : Client) (input : List Nat)
    (chunksize retry t : Nat) (upload_id : String)
    (hinit : cl.createResult = some upload_id)
    (hcs : 0 < chunksize)
    (hfail : cl.completeOk = false)
    (ht : (uploadLoop cl chunksize retry input initState).upload_try = some t)
    (hlt : t < retry) :
    (do_upload cl input chunksize retry).2 = .exit 8 ∧
    (do_upload cl input chunksize retry).1.countP isCompleteEvent = 1 ∧
    (do_upload cl input chunksize retry).1.countP isAbortEvent = 0 := by
  obtain ⟨_, _, s, hs, hmem⟩ := uploadLoop_master cl chunksize retry hcs input initState
  have hcs0 : ¬ chunksize = 0 := by omega
  have hge : ¬ t ≥ retry := by omega
  unfold do_upload
  rw [hinit]
  simp only [hcs0, if_false, ht, hge, hfail, Bool.false_eq_true, if_false]
  have hzero : ∀ p : Event → Bool,
      (∀ ev ∈ s, p ev = false) →
      (uploadLoop cl chunksize retry input initState).trace.countP p = 0 := by
    intro p hp
    rw [hs]
    apply List.countP_eq_zero.mpr
    intro ev hev
    simp only [List.mem_append] at hev
    rcases hev with hev | hev
    · cases hev
    · simp [hp ev hev]
  refine ⟨trivial, ?_, ?_⟩
  · rw [List.countP_append]
    rw [hzero isCompleteEvent (fun ev hev => (hmem ev hev).1)]
    rfl
  · rw [List.countP_append]
    rw [hzero isAbortEvent (fun ev hev => (hmem ev hev).2)]
    rfl

/-- C8: the running `in_md5sum` digest, accumulated chunk by chunk by the
upload loop, equals the MD5 of the whole raw input — for every backend
behaviour, retry bound and positive chunk size. -/
theorem c8_stream_digest_accumulates (cl : Client) (chunksize retry : Nat)
    (input : List Nat) (hcs : 0 < chunksize) :
    (uploadLoop cl chunksize retry input initState).in_md5sum.digest
      = md5 input := by
  obtain ⟨_, h2, _⟩ := uploadLoop_master cl chunksize retry hcs input initState
  unfold Md5Ctx.digest
  rw [h2]
  rfl

/-- C4 witness: the iff instantiated at a one-part upload of the chunk `[0]`
with the backend reporting the correctly-built, quoted composite tag. -/
theorem c4_verify_iff_witness :
    c4client.headResult = some (quoted (md5hex (md5 [0]) ++ "-1")) ∧
    (check_integrity c4client [Md5Ctx.ofBytes [0]] = .ok true ↔
      stripQuoteChars (quoted (md5hex (md5 [0]) ++ "-1")) =
        md5hex (([Md5Ctx.ofBytes [0]].map Md5Ctx.digest).flatten) ++ "-" ++
          toString ([Md5Ctx.ofBytes [0]].length)) :=
  ⟨rfl, c4_verify_iff c4client [Md5Ctx.ofBytes [0]]
    (quoted (md5hex (md5 [0]) ++ "-1")) rfl⟩

/-- C5 witness: a concrete one-chunk run whose part uploads on the first
attempt and whose completion call fails. -/
theorem c5_complete_failure_is_terminal_witness :
    (c5client.createResult = some "sid5" ∧ 0 < 1 ∧
     c5client.completeOk = false ∧
     (uploadLoop c5client 1 2 [0] initState).upload_try = some 1 ∧ 1 < 2) ∧
    ((do_upload c5client [0] 1 2).2 = .exit 8 ∧
     (do_upload c5client [0] 1 2).1.countP isCompleteEvent = 1 ∧
     (do_upload c5client [0] 1 2).1.countP isAbortEvent = 0) :=
  ⟨⟨rfl, by decide, rfl, by decide, by decide⟩,
   c5_complete_failure_is_terminal c5client [0] 1 2 1 "sid5" rfl (by decide)
     rfl (by decide) (by decide)⟩

/-- C8 witness: the accumulated digest of a three-byte input split into
one-byte chunks. -/
theorem c8_stream_digest_accumulates_witness :
    0 < 1 ∧
    (uploadLoop c8client 1 2 [7, 8, 9] initState).in_md5sum.digest
      = md5 [7, 8, 9] :=
  ⟨by decide, c8_stream_digest_accumulates c8client 1 2 [7, 8, 9] (by decide)⟩

/-- C6: an attempt whose transport call succeeds but whose returned tag,
stripped like Python's `e[1:-1]`, differs from the locally computed chunk
MD5 is handled by the same sleep-and-retry policy as a raised `ClientError`
(the `ETagMismatchError` is caught by the same handler): the loop sleeps and
re-enters with the incremented attempt counter exactly as a transport
failure does (differing only in the mismatch message and the `parts` append
discussed under C2), and the mismatched attempt is never recorded as the
part's success. -/
theorem c6_mismatch_is_retried_like_transport_failure
    (cl cl2 : Client) (num : Nat) (chunkHex : String)
    (retry upload_try : Nat) (parts : List (Nat × String)) (trace : List Event)
    (e : String) (h : upload_try < retry)
    (he : cl.uploadPart num (upload_try + 1) = .etag e)
    (hm : (e.drop 1).dropRight 1 ≠ chunkHex)
    (he2 : cl2.uploadPart num (upload_try + 1) = .clientError) :
    (retryLoop cl num chunkHex retry upload_try parts trace =
      retryLoop cl num chunkHex retry (upload_try + 1) (parts ++ [(num, e)])
        (trace ++ [.attempt num (upload_try + 1), .mismatchMsg num, .sleep])) ∧
    (retryLoop cl2 num chunkHex retry upload_try parts trace =
      retryLoop cl2 num chunkHex retry (upload_try + 1) parts
        (trace ++ [.attempt num (upload_try + 1), .sleep])) ∧
    Event.partOk num (upload_try + 1) ∉
      (retryLoop cl num chunkHex retry upload_try parts []).2.2 := by
  refine ⟨retryLoop_mismatch cl num chunkHex retry upload_try parts trace e h he hm,
    retryLoop_clientError cl2 num chunkHex retry upload_try parts trace h he2, ?_⟩
  rw [retryLoop_mismatch cl num chunkHex retry upload_try parts [] e h he hm]
  obtain ⟨s, hs, hmem⟩ := retryLoop_trace_shape cl num chunkHex retry
    (upload_try + 1) (parts ++ [(num, e)])
    ([] ++ [.attempt num (upload_try + 1), .mismatchMsg num, .sleep])
  rw [hs]
  intro hin
  rcases List.mem_append.mp hin with hin | hin
  · simp only [List.nil_append, List.mem_cons, List.not_mem_nil, or_false] at hin
    rcases hin with h1 | h1 | h1 <;> exact Event.noConfusion h1
  · rcases hmem _ hin with h1 | h1 | ⟨t, ht, h1 | h1⟩
    · exact Event.noConfusion h1
    · exact Event.noConfusion h1
    · exact Event.noConfusion h1
    · injection h1 with h2 h3
      omega

/-- C6 witness: a mismatching first attempt (`retry = 1`) against the local
checksum string "ff", next to its transport-failure twin. -/
theorem c6_mismatch_is_retried_like_transport_failure_witness :
    (0 < 1 ∧ c6client.uploadPart 1 1 = .etag "\"00\"" ∧
     ("\"00\"".drop 1).dropRight 1 ≠ "ff" ∧
     c6clientTransport.uploadPart 1 1 = .clientError) ∧
    ((retryLoop c6client 1 "ff" 1 0 [] [] =
        retryLoop c6client 1 "ff" 1 1 [(1, "\"00\"")]
          [.attempt 1 1, .mismatchMsg 1, .sleep]) ∧
     (retryLoop c6clientTransport 1 "ff" 1 0 [] [] =
        retryLoop c6clientTransport 1 "ff" 1 1 [] [.attempt 1 1, .sleep]) ∧
     Event.partOk 1 1 ∉ (retryLoop c6client 1 "ff" 1 0 [] []).2.2) :=
  ⟨⟨by decide, rfl, by decide, rfl⟩,
   c6_mismatch_is_retried_like_transport_failure c6client c6clientTransport
     1 "ff" 1 0 [] [] "\"00\"" (by decide) rfl (by decide) rfl⟩

theorem uploadLoop_zero_retry (cl : Client) (chunksize : Nat)
    (hcs : 0 < chunksize) :
    ∀ input : List Nat, ∀ st : LoopState,
      uploadLoop cl chunksize 0 input st =
        { num := st.num + (chunksOf chunksize input).length
          parts := st.parts
          hashes := st.hashes ++ (chunksOf chunksize input).map Md5Ctx.ofBytes
          in_md5sum := ⟨st.in_md5sum.data ++ input⟩
          upload_try := if input = [] then st.upload_try else some 0
          trace := st.trace ++ zeroRetryEvents st.num (chunksOf chunksize input) } := by
  have key : ∀ n : Nat, ∀ input : List Nat, input.length = n → ∀ st : LoopState,
      uploadLoop cl chunksize 0 input st =
        { num := st.num + (chunksOf chunksize input).length
          parts := st.parts
          hashes := st.hashes ++ (chunksOf chunksize input).map Md5Ctx.ofBytes
          in_md5sum := ⟨st.in_md5sum.data ++ input⟩
          upload_try := if input = [] then st.upload_try else some 0
          trace := st.trace ++ zeroRetryEvents st.num (chunksOf chunksize input) } := by
    intro n
    induction n using Nat.strong_induction_on with
    | _ n ih =>
      intro input hlen st
      by_cases hend : input.take chunksize = []
      · have hinput : input = [] := by
          rcases List.take_eq_nil_iff.mp hend with h0 | h0
          · omega
          · exact h0
        subst hinput
        rw [uploadLoop_end cl chunksize 0 [] st hend]
        simp [chunksOf_nil, zeroRetryEvents]
      · have hne : input ≠ [] := by
          intro h0
          exact hend (by simp [h0])
        have hlt : (input.drop chunksize).length < n := by
          simp only [List.length_drop]
          have : 0 < input.length := List.length_pos.mpr hne
          omega
        rw [uploadLoop_step cl chunksize 0 input st hend]
        rw [retryLoop_stop cl (st.num + 1)
          (Md5Ctx.ofBytes (input.take chunksize)).hexdigest 0 0 st.parts
          (st.trace ++ [Event.readChunk (input.take chunksize),
                        Event.hashAppend (st.num + 1)]) (by omega)]
        rw [ih _ hlt (input.drop chunksize) rfl]
        rw [chunksOf_cons chunksize input (by omega) hne]
        simp only [zeroRetryEvents, List.length_cons, List.map_cons, ite_self,
          Md5Ctx.update, List.append_assoc, List.singleton_append,
          List.cons_append, List.nil_append, hne, if_false, ite_false,
          List.take_append_drop, LoopState.mk.injEq]
        refine ⟨by omega, ?_, ?_, ?_, ?_, ?_⟩ <;> trivial
  exact fun input st => key input.length input rfl st

theorem zeroRetryEvents_no_attempt :
    ∀ chunks : List (List Nat), ∀ num0 : Nat,
      (zeroRetryEvents num0 chunks).countP isAttemptEvent = 0 := by
  intro chunks
  induction chunks with
  | nil => intro num0; rfl
  | cons c rest ih =>
    intro num0
    simp only [zeroRetryEvents, List.countP_cons]
    rw [ih (num0 + 1)]
    rfl

theorem zeroRetryEvents_reads :
    ∀ chunks : List (List Nat), ∀ num0 : Nat,
      (zeroRetryEvents num0 chunks).filterMap readChunkBytes = chunks := by
  intro chunks
  induction chunks with
  | nil => intro num0; rfl
  | cons c rest ih =>
    intro num0
    simp only [zeroRetryEvents, List.filterMap_cons]
    rw [ih (num0 + 1)]
    rfl

theorem zeroRetryEvents_no_abort :
    ∀ chunks : List (List Nat), ∀ num0 : Nat, ∀ sid : String,
      (zeroRetryEvents num0 chunks).count (Event.abortCalled sid) = 0 := by
  intro chunks
  induction chunks with
  | nil => intro num0 sid; rfl
  | cons c rest ih =>
    intro num0 sid
    simp only [zeroRetryEvents, List.count_cons]
    rw [ih (num0 + 1) sid]
    rfl

/-- C9: with `retry = 0` and a non-empty input, the inner retry loop's guard
`upload_try < retry` is false from the start, so no `upload_part` call is
ever made; yet every chunk of the input is still read and its MD5 appended
to `hashes`, and once the stream is exhausted the session is aborted
(`abort_multipart_upload` called exactly once with the session's upload id)
and the run terminates with the failure exit `sys.exit(8)`. -/
theorem c9_zero_retries_reads_all_uploads_none_aborts
    (cl : Client) (input : List Nat) (chunksize : Nat) (upload_id : String)
    (hinit : cl.createResult = some upload_id) (hcs : 0 < chunksize)
    (hne : input ≠ []) :
    (do_upload cl input chunksize 0).1.countP isAttemptEvent = 0 ∧
    (do_upload cl input chunksize 0).1.filterMap readChunkBytes
        = chunksOf chunksize input ∧
    (uploadLoop cl chunksize 0 input initState).hashes
        = (chunksOf chunksize input).map Md5Ctx.ofBytes ∧
    (do_upload cl input chunksize 0).1.count (Event.abortCalled upload_id) = 1 ∧
    (do_upload cl input chunksize 0).2 = .exit 8 := by
  have hcs0 : ¬ chunksize = 0 := by omega
  have hst := uploadLoop_zero_retry cl chunksize hcs input initState
  have htrace : (do_upload cl input chunksize 0).1 =
      zeroRetryEvents 0 (chunksOf chunksize input)
        ++ [Event.abortCalled upload_id] ∧
      (do_upload cl input chunksize 0).2 = .exit 8 := by
    unfold do_upload
    rw [hinit]
    simp only [hcs0, if_false]
    rw [hst]
    simp only [hne, if_false, ite_false, ge_iff_le, Nat.le_zero, Nat.le_refl,
      if_true, ite_true, initState]
    exact ⟨by simp, trivial⟩
  refine ⟨?_, ?_, ?_, ?_, htrace.2⟩
  · rw [htrace.1, List.countP_append, zeroRetryEvents_no_attempt]
    rfl
  · rw [htrace.1, List.filterMap_append, zeroRetryEvents_reads]
    simp [readChunkBytes]
  · rw [hst]
    simp [initState]
  · rw [htrace.1, List.count_append, zeroRetryEvents_no_abort]
    simp

/-- C9 witness: a three-byte input in two chunks with `retry = 0`. -/
theorem c9_zero_retries_reads_all_uploads_none_aborts_witness :
    (c9client.createResult = some "sid9" ∧ 0 < 2 ∧ ([0, 1, 2] : List Nat) ≠ []) ∧
    ((do_upload c9client [0, 1, 2] 2 0).1.countP isAttemptEvent = 0 ∧
     (do_upload c9client [0, 1, 2] 2 0).1.filterMap readChunkBytes
         = chunksOf 2 [0, 1, 2] ∧
     (uploadLoop c9client 2 0 [0, 1, 2] initState).hashes
         = (chunksOf 2 [0, 1, 2]).map Md5Ctx.ofBytes ∧
     (do_upload c9client [0, 1, 2] 2 0).1.count (Event.abortCalled "sid9") = 1 ∧
     (do_upload c9client [0, 1, 2] 2 0).2 = .exit 8) :=
  ⟨⟨rfl, by decide, by decide⟩,
   c9_zero_retries_reads_all_uploads_none_aborts c9client [0, 1, 2] 2 "sid9"
     rfl (by decide) (by decide)⟩

theorem hashBeforeAttempt_nil : hashBeforeAttempt [] := by
  intro i k t h
  simp at h

theorem hashBeforeAttempt_append (A B : List Event)
    (hA : hashBeforeAttempt A)
    (hB : ∀ ev ∈ B, ∀ k t, ev = Event.attempt k t → Event.hashAppend k ∈ A) :
    hashBeforeAttempt (A ++ B) := by
  intro i k t hget
  by_cases hi : i < A.length
  · rw [List.get?_append hi] at hget
    have hmem := hA i k t hget
    rw [List.take_append_eq_append_take]
    exact List.mem_append_left _ hmem
  · push_neg at hi
    rw [List.get?_append_right hi] at hget
    have hha := hB _ (List.get?_mem hget) k t rfl
    rw [List.take_append_eq_append_take]
    apply List.mem_append_left
    rw [List.take_of_length_le hi]
    exact hha

theorem hashBeforeAttempt_snoc (A : List Event) (ev : Event)
    (hA : hashBeforeAttempt A) (hev : ∀ k t, ev ≠ Event.attempt k t) :
    hashBeforeAttempt (A ++ [ev]) := by
  apply hashBeforeAttempt_append A [ev] hA
  intro e he k t heq
  simp only [List.mem_cons, List.not_mem_nil, or_false] at he
  subst he
  exact absurd heq (hev k t)

theorem uploadLoop_hash_order (cl : Client) (chunksize retry : Nat) :
    ∀ input : List Nat, ∀ st : LoopState, hashBeforeAttempt st.trace →
      hashBeforeAttempt (uploadLoop cl chunksize retry input st).trace := by
  have key : ∀ n : Nat, ∀ input : List Nat, input.length = n → ∀ st : LoopState,
      hashBeforeAttempt st.trace →
      hashBeforeAttempt (uploadLoop cl chunksize retry input st).trace := by
    intro n
    induction n using Nat.strong_induction_on with
    | _ n ih =>
      intro input hlen st hst
      by_cases hend : input.take chunksize = []
      · rw [uploadLoop_end cl chunksize retry input st hend]
        exact hashBeforeAttempt_snoc st.trace Event.readEnd hst
          (fun k t h => Event.noConfusion h)
      · have hne : input ≠ [] := by
          intro h0
          exact hend (by simp [h0])
        have hcs : chunksize ≠ 0 := by
          intro h0
          exact hend (by simp [h0])
        have hlt : (input.drop chunksize).length < n := by
          simp only [List.length_drop]
          have : 0 < input.length := List.length_pos.mpr hne
          omega
        rw [uploadLoop_step cl chunksize retry input st hend]
        apply ih _ hlt _ rfl
        obtain ⟨s, hs, hmem⟩ := retryLoop_trace_shape cl (st.num + 1)
          (Md5Ctx.ofBytes (input.take chunksize)).hexdigest retry 0 st.parts
          (st.trace ++ [Event.readChunk (input.take chunksize),
                        Event.hashAppend (st.num + 1)])
        show hashBeforeAttempt (retryLoop cl (st.num + 1)
          (Md5Ctx.ofBytes (input.take chunksize)).hexdigest retry 0 st.parts
          (st.trace ++ [Event.readChunk (input.take chunksize),
                        Event.hashAppend (st.num + 1)])).2.2
        rw [hs]
        have hA : hashBeforeAttempt (st.trace ++
            [Event.readChunk (input.take chunksize),
             Event.hashAppend (st.num + 1)]) := by
          apply hashBeforeAttempt_append _ _ hst
          intro e he k t heq
          simp only [List.mem_cons, List.not_mem_nil, or_false] at he
          rcases he with h1 | h1 <;> subst h1 <;> exact Event.noConfusion heq
        apply hashBeforeAttempt_append _ _ hA
        intro e he k t heq
        rcases hmem e he with h1 | h1 | ⟨t2, _, h1 | h1⟩ <;> subst h1
        · exact Event.noConfusion heq
        · exact Event.noConfusion heq
        · injection heq with h2 h3
          subst h2
          exact List.mem_append_right _ (by simp)
        · exact Event.noConfusion heq
  exact fun input st => key input.length input rfl st

/-- C10: for any backend behaviour, the `hashes` list grows by exactly one
entry per chunk read — final value: the MD5 context of every chunk, in read
order, whether or not its upload ever succeeded — and in the run's trace the
`hashes.append` of a part always precedes every `upload_part` attempt for
that part. -/
theorem c10_hash_appended_before_any_attempt
    (cl : Client) (input : List Nat) (chunksize retry : Nat)
    (upload_id : String)
    (hinit : cl.createResult = some upload_id) (hcs : 0 < chunksize) :
    ((uploadLoop cl chunksize retry input initState).hashes
        = (chunksOf chunksize input).map Md5Ctx.ofBytes) ∧
    hashBeforeAttempt (do_upload cl input chunksize retry).1 := by
  have hcs0 : ¬ chunksize = 0 := by omega
  constructor
  · have h1 := (uploadLoop_master cl chunksize retry hcs input initState).1
    rw [h1]
    simp [initState]
  · have hloop : hashBeforeAttempt
        (uploadLoop cl chunksize retry input initState).trace := by
      apply uploadLoop_hash_order
      exact hashBeforeAttempt_nil
    have hcases : (do_upload cl input chunksize retry).1 =
        (uploadLoop cl chunksize retry input initState).trace ∨
        ∃ ev, (∀ k t, ev ≠ Event.attempt k t) ∧
          (do_upload cl input chunksize retry).1 =
            (uploadLoop cl chunksize retry input initState).trace ++ [ev] := by
      unfold do_upload
      rw [hinit]
      simp only [hcs0, if_false]
      cases (uploadLoop cl chunksize retry input initState).upload_try with
      | none => exact Or.inl rfl
      | some t =>
        dsimp only
        by_cases hge : t ≥ retry
        · rw [if_pos hge]
          exact Or.inr ⟨Event.abortCalled upload_id,
            fun k t2 h => Event.noConfusion h, rfl⟩
        · rw [if_neg hge]
          cases hco : cl.completeOk with
          | true =>
            rw [if_pos rfl]
            exact Or.inr ⟨Event.completeCalled upload_id
              (uploadLoop cl chunksize retry input initState).parts,
              fun k t2 h => Event.noConfusion h, rfl⟩
          | false =>
            rw [if_neg (by simp)]
            exact Or.inr ⟨Event.completeCalled upload_id
              (uploadLoop cl chunksize retry input initState).parts,
              fun k t2 h => Event.noConfusion h, rfl⟩
    rcases hcases with hcase | ⟨ev, hev, hcase⟩
    · rw [hcase]
      exact hloop
    · rw [hcase]
      exact hashBeforeAttempt_snoc _ ev hloop hev

/-- C10 witness: one chunk needing two attempts (`retry = 3`). -/
theorem c10_hash_appended_before_any_attempt_witness :
    (c10client.createResult = some "sidX" ∧ 0 < 1) ∧
    ((uploadLoop c10client 1 3 [5] initState).hashes
        = (chunksOf 1 [5]).map Md5Ctx.ofBytes ∧
     hashBeforeAttempt (do_upload c10client [5] 1 3).1) :=
  ⟨⟨rfl, by decide⟩,
   c10_hash_appended_before_any_attempt c10client [5] 1 3 "sidX" rfl (by decide)⟩
